import Mathlib

/-!
# gpu_burner: the stress-test loop of `gpu_burn-drv.cpp`

A shallow embedding of the capacity planner, the fault predicate, the compare
kernel, the error check and one iteration of the run loop, followed by the
properties established about them.

Conventions of the embedding.

* A finite `double` is a rational number (`Dbl`); the buffers of the program
  only ever hold finite values.
* `size_t`, `unsigned int` and `std::uint32_t` values are natural numbers; a
  conversion to a 32-bit unsigned type is written `% 2 ^ 32`.
* A `float` (binary32) or `double` (binary64) obtained from an integer is that
  integer rounded to 24, respectively 53, significant bits, round-to-nearest,
  ties-to-even (`roundToSig`).
* Device primitives (`thrust::sequence`, `thrust::sort`, `thrust::remove_if`,
  the kernel launch, `thrust::reduce`) compute their mathematical result.
-/

namespace GpuBurn

/-- A finite double-precision value. -/
abbrev Dbl := ℚ

/-! ## Binary floating-point rounding of integers -/

/-- Number of low-order bits of `n` that do not fit in `p` significant bits:
the least `k` with `n < 2 ^ (p + k)`.  The first argument is recursion fuel;
`n` itself is always enough, since every step halves the value. -/
def excessBits (p : Nat) : Nat → Nat → Nat
  | 0, _ => 0
  | fuel + 1, n => if n < 2 ^ p then 0 else excessBits p fuel (n / 2) + 1

/-- Round the integer `n` to `p` significant bits, to nearest, ties to even:
the conversion of an integer to a binary floating-point format with a `p`-bit
significand (exponent range permitting). -/
def roundToSig (p n : Nat) : Nat :=
  let k := excessBits p n n
  let q := n / 2 ^ k
  let r := n % 2 ^ k
  if 2 * r < 2 ^ k then q * 2 ^ k
  else if 2 * r = 2 ^ k then (if q % 2 = 0 then q else q + 1) * 2 ^ k
  else (q + 1) * 2 ^ k

/-- Conversion of an index to `double`, as done by `thrust::sequence`. -/
def toDouble (i : Nat) : Dbl := (roundToSig 53 i : ℚ)

/-! ## Capacity planner (`main`, lines 99-107) -/

/-- Significand of `free_memory_percentage = 0.9f`: the binary32 value nearest
to 0.9 is `15099494 / 2 ^ 24`. -/
def free_memory_percentage_sig : Nat := 15099494

/-- The expression `free_memory * free_memory_percentage / sizeof(double)` is
evaluated in single precision: `free_memory` is converted to `float`, the
product with `0.9f` is rounded to `float`, and the division by `8.0f` is exact.
The result is `max_size_scaled free_memory / 2 ^ 27`. -/
def max_size_scaled (free_memory : Nat) : Nat :=
  roundToSig 24 (roundToSig 24 free_memory * free_memory_percentage_sig)

/-- Value of `max_size`: `static_cast<size_t>` truncates the float quotient. -/
def max_size (free_memory : Nat) : Nat :=
  max_size_scaled free_memory / 2 ^ 27

/-- Value of `buffer_size = max_size / 3ul`. -/
def buffer_size (free_memory : Nat) : Nat :=
  max_size free_memory / 3

/-! ## Grid sizing (`iDivUp`, lines 39-43, and its call on line 134) -/

/-- Function `iDivUp` on `std::uint32_t` arguments (both below `2 ^ 32`). -/
def iDivUp (a b : Nat) : Nat :=
  if a % b ≠ 0 then (a / b + 1) % 2 ^ 32 else a / b

/-- The constant `g_blockSize = 16u`. -/
def g_blockSize : Nat := 16

/-- Number of work-groups of the launch on line 134: `new_size`, a 64-bit
distance, is converted to the `std::uint32_t` parameter of `iDivUp`. -/
def launch_groups (new_size : Nat) : Nat :=
  iDivUp (new_size % 2 ^ 32) g_blockSize

/-! ## Fault predicate (`is_even`, lines 44-47) -/

/-- Smallest value of a 32-bit `int`. -/
def INT_MIN : Int := -2147483648

/-- Largest value of a 32-bit `int`. -/
def INT_MAX : Int := 2147483647

/-- Truncation toward zero of a finite double. -/
def truncate (x : Dbl) : Int := if 0 ≤ x then ⌊x⌋ else ⌈x⌉

/-- The truncated value is representable in `int`: the condition under which
C++ defines `static_cast<int>(x)`. -/
def in_int_range (x : Dbl) : Prop := INT_MIN ≤ truncate x ∧ truncate x ≤ INT_MAX

instance (x : Dbl) : Decidable (in_int_range x) := by
  unfold in_int_range; infer_instance

/-- Host-side `static_cast<int>(x)`: the truncated value when it is
representable, undefined (`none`) otherwise. -/
def static_cast_int (x : Dbl) : Option Int :=
  if in_int_range x then some (truncate x) else none

/-- Device-side `static_cast<int>(x)`: the float-to-integer conversion of the
CUDA device truncates toward zero and clamps the result to the range of the
destination type.  It agrees with `static_cast_int` wherever that is defined. -/
def device_static_cast_int (x : Dbl) : Int :=
  if truncate x < INT_MIN then INT_MIN
  else if INT_MAX < truncate x then INT_MAX
  else truncate x

/-- Functor `is_even`; the program only calls it in device code.  The C++
operator `%` is the remainder of the truncating division. -/
def is_even (x : Dbl) : Bool :=
  Int.tmod (device_static_cast_int x) 2 == 0

/-- Predicate of the specification, in its words:
`is_faulty(x) := (truncate_to_integer(x) mod 2) == 0`, the parity of the
truncated integer part, with no bound on its size. -/
def is_faulty (x : Dbl) : Bool :=
  truncate x % 2 == 0

/-! ## Compare kernel (`compare`, lines 49-59) -/

/-- Body of `compare` for the work-item whose global index is `id`.  The
result is the pair of buffers `(A, faulty_elems)` after the work-item ran. -/
def compare_at (A faulty_elems : List Dbl) (N id : Nat) : List Dbl × List Dbl :=
  if id ≥ N then (A, faulty_elems)
  else
    let my_faulty : Nat := if is_even (A.getD id 0) then 0 + 1 else 0
    (A, faulty_elems.set id (my_faulty : ℚ))

/-- Kernel `compare` for the work-item `threadIdx` of block `blockIdx`; the
index arithmetic is done in `unsigned int`. -/
def compare (A faulty_elems : List Dbl) (N blockIdx blockDim threadIdx : Nat) :
    List Dbl × List Dbl :=
  compare_at A faulty_elems N ((blockIdx * blockDim + threadIdx) % 2 ^ 32)

/-- Launch `compare<<<gridDim, blockDim>>>(A, faulty_elems, N)`: every
work-item of every block runs once.  Work-items write distinct slots, so the
order in which they are run does not matter. -/
def launch_compare (gridDim blockDim : Nat) (A faulty_elems : List Dbl) (N : Nat) :
    List Dbl × List Dbl :=
  (List.product (List.range gridDim) (List.range blockDim)).foldl
    (fun mem bt => compare mem.1 mem.2 N bt.1 blockDim bt.2) (A, faulty_elems)

/-! ## Error check (`_checkError`, lines 61-73) -/

/-- The success status code. -/
def CUDA_SUCCESS : Nat := 0

/-- Function `_checkError`; `cudaGetErrorString` is the driver's table of error
strings.  A thrown `std::runtime_error` is `Except.error` of its message. -/
def _checkError (cudaGetErrorString : Nat → String) (rCode : Nat) (file : String)
    (line : Int) (desc : String) : Except String Unit :=
  if rCode ≠ CUDA_SUCCESS then
    let err := cudaGetErrorString rCode
    Except.error
      ((if desc == "" then "Error (" else ("Error in " ++ desc ++ " (")) ++ file ++
        ":" ++ toString line ++ "): " ++ err)
  else
    Except.ok ()

/-! ## One iteration of the run loop (`main`, lines 121-139) -/

/-- Call `thrust::sequence(v.begin(), v.end())`: the buffer is overwritten with
`0, 1, 2, ...` converted to `double`. -/
def sequence (v : List Dbl) : List Dbl :=
  (List.range v.length).map toDouble

/-- Call `thrust::sort(v.begin(), v.end(), thrust::greater<double>())`. -/
def sort_greater (v : List Dbl) : List Dbl :=
  v.insertionSort (fun a b => b ≤ a)

/-- Call `thrust::sort(v.begin(), v.end(), thrust::less<double>())`. -/
def sort_less (v : List Dbl) : List Dbl :=
  v.insertionSort (fun a b => a ≤ b)

/-- Call `thrust::remove_if(v.begin(), v.end(), stencil.begin(), pred)`: the
elements of `v` whose stencil element does not satisfy `pred` are moved to the
front in their original order; the result is the buffer and the position of
the new end.  The slots behind the new end keep their former content. -/
def remove_if (v stencil : List Dbl) (pred : Dbl → Bool) : List Dbl × Nat :=
  let kept := ((v.zip stencil).filter (fun p => !pred p.2)).map Prod.fst
  (kept ++ v.drop kept.length, kept.length)

/-- Call `thrust::reduce(first, last)`: the sum of the range.  The sum is taken
exactly; for fault flags, which are `0.0` or `1.0`, the `double` sum is exact as
well. -/
def reduce (v : List Dbl) : Dbl := v.sum

/-- Variables of the run loop: the two device vectors and the error count (an
`unsigned int`). -/
structure LoopState where
  /-- Primary buffer. -/
  d_A : List Dbl
  /-- Secondary buffer. -/
  d_B : List Dbl
  /-- Error count. -/
  errors_count : Nat

/-- Device buffers and the partition length inside one iteration. -/
structure DeviceState where
  /-- Primary buffer. -/
  d_A : List Dbl
  /-- Secondary buffer. -/
  d_B : List Dbl
  /-- Length returned by the partition. -/
  new_size : Nat

/-- Lines 127-130: both buffers are generated and the primary one is sorted
descending, then ascending.  The result is `(d_A, d_B)`. -/
def generate_sorted (s : LoopState) : List Dbl × List Dbl :=
  let d_A := sequence s.d_A
  let d_B := sequence s.d_B
  let d_A := sort_greater d_A
  let d_A := sort_less d_A
  (d_A, d_B)

/-- Lines 127-132: generation, sorting and the partition of the primary buffer
with the secondary buffer as stencil. -/
def partition_step (s : LoopState) : DeviceState :=
  let g := generate_sorted s
  let new_last := remove_if g.1 g.2 is_even
  { d_A := new_last.1, d_B := g.2, new_size := new_last.2 }

/-- Lines 127-135: the partition followed by the kernel launch, which writes
the fault flags into the secondary buffer. -/
def kernel_step (s : LoopState) : DeviceState :=
  let p := partition_step s
  let mem := launch_compare (launch_groups p.new_size) g_blockSize p.d_A p.d_B p.new_size
  { d_A := mem.1, d_B := mem.2, new_size := p.new_size }

/-- Statement `errors_count += static_cast<int>(r)` on the host: the `int` is
converted to `unsigned int` and the sum wraps modulo `2 ^ 32`. -/
def add_errors (errors_count : Nat) (r : Dbl) : Option Nat :=
  (static_cast_int r).map fun e => (errors_count + (e % 2 ^ 32).toNat) % 2 ^ 32

/-- Line 139: the first `new_size` fault flags are reduced and added to the
error count. -/
def aggregate (errors_count : Nat) (d_B : List Dbl) (new_size : Nat) : Option Nat :=
  add_errors errors_count (reduce (d_B.take new_size))

/-- One iteration of the `while` loop, lines 127-139. -/
def loop_body (s : LoopState) : Option LoopState :=
  let k := kernel_step s
  (aggregate s.errors_count k.d_B k.new_size).map fun e =>
    { d_A := k.d_A, d_B := k.d_B, errors_count := e }

/-- The loop run for `iterations` iterations (their number is decided by the
clock). -/
def run : Nat → LoopState → Option LoopState
  | 0, s => some s
  | iterations + 1, s => (loop_body s).bind (run iterations)

/-- State at loop entry for buffers of `N` elements: `errors_count = 0u`. -/
def initial_state (N : Nat) : LoopState :=
  { d_A := List.replicate N 0, d_B := List.replicate N 0, errors_count := 0 }

/-! ## Rounding lemmas -/

theorem excessBits_lt (p : Nat) : ∀ fuel n : Nat, n ≤ fuel → n < 2 ^ (p + excessBits p fuel n) := by
  intro fuel
  induction fuel with
  | zero =>
    intro n hn
    have h0 : n = 0 := by omega
    subst h0
    exact Nat.pos_pow_of_pos _ (by decide)
  | succ fuel ih =>
    intro n hn
    unfold excessBits
    by_cases h : n < 2 ^ p
    · simp [h]
    · simp only [h, if_false]
      have h1 : 1 ≤ 2 ^ p := Nat.one_le_two_pow
      have h2 := ih (n / 2) (by omega)
      have h3 : 2 ^ (p + (excessBits p fuel (n / 2) + 1)) = 2 * 2 ^ (p + excessBits p fuel (n / 2)) := by
        rw [← Nat.add_assoc, Nat.pow_succ, Nat.mul_comm]
      omega

theorem excessBits_le (p : Nat) : ∀ fuel n : Nat, n ≤ fuel → excessBits p fuel n ≠ 0 →
    2 ^ (p + excessBits p fuel n) ≤ 2 * n := by
  intro fuel
  induction fuel with
  | zero => intro n _ h; simp [excessBits] at h
  | succ fuel ih =>
    intro n hn
    unfold excessBits
    by_cases h : n < 2 ^ p
    · simp [h]
    · simp only [h, if_false]
      intro _
      have h1 : 1 ≤ 2 ^ p := Nat.one_le_two_pow
      have h3 : 2 ^ (p + (excessBits p fuel (n / 2) + 1)) = 2 * 2 ^ (p + excessBits p fuel (n / 2)) := by
        rw [← Nat.add_assoc, Nat.pow_succ, Nat.mul_comm]
      by_cases hk : excessBits p fuel (n / 2) = 0
      · rw [hk]; simp only [Nat.zero_add]
        rw [Nat.pow_succ]; omega
      · have h2 := ih (n / 2) (by omega) hk
        omega

theorem excessBits_eq_zero (p n : Nat) (h : n < 2 ^ p) : excessBits p n n = 0 := by
  cases n with
  | zero => rfl
  | succ m => simp [excessBits, h]

theorem roundToSig_of_lt (p n : Nat) (h : n < 2 ^ p) : roundToSig p n = n := by
  simp [roundToSig, excessBits_eq_zero p n h, Nat.mod_one]

/-- The two possible outcomes of the rounding, with the side of the midpoint
on which each one is taken. -/
theorem roundToSig_cases (p n : Nat) :
    (roundToSig p n = n / 2 ^ excessBits p n n * 2 ^ excessBits p n n ∧
      2 * (n % 2 ^ excessBits p n n) ≤ 2 ^ excessBits p n n) ∨
    (roundToSig p n = (n / 2 ^ excessBits p n n + 1) * 2 ^ excessBits p n n ∧
      2 ^ excessBits p n n ≤ 2 * (n % 2 ^ excessBits p n n)) := by
  unfold roundToSig
  simp only []
  by_cases h1 : 2 * (n % 2 ^ excessBits p n n) < 2 ^ excessBits p n n
  · left; rw [if_pos h1]; exact ⟨rfl, by omega⟩
  · rw [if_neg h1]
    by_cases h2 : 2 * (n % 2 ^ excessBits p n n) = 2 ^ excessBits p n n
    · rw [if_pos h2]
      by_cases h3 : n / 2 ^ excessBits p n n % 2 = 0
      · left; rw [if_pos h3]; exact ⟨rfl, by omega⟩
      · right; rw [if_neg h3]; exact ⟨rfl, by omega⟩
    · right; rw [if_neg h2]; exact ⟨rfl, by omega⟩

/-- Relative error of the rounding to 24 bits: at most `2 ^ -24`, upward. -/
theorem roundToSig24_le (n : Nat) : 2 ^ 24 * roundToSig 24 n ≤ (2 ^ 24 + 1) * n := by
  have hc := roundToSig_cases 24 n
  simp only [] at hc
  have hdm := Nat.div_add_mod n (2 ^ excessBits 24 n n)
  rw [Nat.mul_comm] at hdm
  by_cases hk : excessBits 24 n n = 0
  · rw [hk] at hc hdm
    simp at hc hdm
    omega
  · have hle := excessBits_le 24 n n (Nat.le_refl n) hk
    rw [Nat.pow_add] at hle
    rcases hc with ⟨hr, _⟩ | ⟨hr, hm⟩
    · rw [hr]; omega
    · rw [hr, Nat.add_mul, Nat.one_mul]; omega

/-- Relative error of the rounding to 24 bits: at most `2 ^ -24`, downward. -/
theorem roundToSig24_ge (n : Nat) : (2 ^ 24 - 1) * n ≤ 2 ^ 24 * roundToSig 24 n := by
  have hc := roundToSig_cases 24 n
  simp only [] at hc
  have hdm := Nat.div_add_mod n (2 ^ excessBits 24 n n)
  rw [Nat.mul_comm] at hdm
  by_cases hk : excessBits 24 n n = 0
  · rw [hk] at hc hdm
    simp at hc hdm
    omega
  · have hle := excessBits_le 24 n n (Nat.le_refl n) hk
    rw [Nat.pow_add] at hle
    rcases hc with ⟨hr, hm⟩ | ⟨hr, _⟩
    · rw [hr]; omega
    · rw [hr, Nat.add_mul, Nat.one_mul]; omega

theorem excessBits_mono (p : Nat) {m n : Nat} (h : m ≤ n) :
    excessBits p m m ≤ excessBits p n n := by
  by_contra hlt
  have hkm : excessBits p m m ≠ 0 := by omega
  have h1 := excessBits_le p m m (Nat.le_refl m) hkm
  have h2 := excessBits_lt p n n (Nat.le_refl n)
  have h3 : 2 ^ (p + excessBits p m m) < 2 ^ (p + excessBits p n n + 1) := by
    rw [Nat.pow_succ]; omega
  have h4 := (Nat.pow_lt_pow_iff_right (by norm_num : 1 < 2)).1 h3
  omega

theorem roundToSig_le_pow (p n : Nat) : roundToSig p n ≤ 2 ^ (p + excessBits p n n) := by
  have hlt := excessBits_lt p n n (Nat.le_refl n)
  rw [Nat.pow_add] at hlt
  have hq : n / 2 ^ excessBits p n n < 2 ^ p :=
    (Nat.div_lt_iff_lt_mul (Nat.pos_pow_of_pos _ (by decide))).2 hlt
  have hb : (n / 2 ^ excessBits p n n + 1) * 2 ^ excessBits p n n ≤
      2 ^ p * 2 ^ excessBits p n n := Nat.mul_le_mul_right _ hq
  rw [Nat.pow_add]
  rcases roundToSig_cases p n with ⟨hr, _⟩ | ⟨hr, _⟩
  · rw [hr]
    exact Nat.le_trans (Nat.mul_le_mul_right _ (Nat.le_succ _)) hb
  · rw [hr]; exact hb

theorem div_mul_le_roundToSig (p n : Nat) :
    n / 2 ^ excessBits p n n * 2 ^ excessBits p n n ≤ roundToSig p n := by
  rcases roundToSig_cases p n with ⟨hr, _⟩ | ⟨hr, _⟩
  · rw [hr]
  · rw [hr]; exact Nat.mul_le_mul_right _ (Nat.le_succ _)

theorem pow_le_roundToSig (p n : Nat) (hp : 1 ≤ p) (hk : excessBits p n n ≠ 0) :
    2 ^ (p - 1 + excessBits p n n) ≤ roundToSig p n := by
  have hle := excessBits_le p n n (Nat.le_refl n) hk
  have e : 2 ^ (p + excessBits p n n) = 2 * 2 ^ (p - 1 + excessBits p n n) := by
    have : p + excessBits p n n = (p - 1 + excessBits p n n) + 1 := by omega
    rw [this, Nat.pow_succ, Nat.mul_comm]
  have h1 : 2 ^ (p - 1 + excessBits p n n) ≤ n := by omega
  rw [Nat.pow_add] at h1
  have h2 : 2 ^ (p - 1) ≤ n / 2 ^ excessBits p n n :=
    (Nat.le_div_iff_mul_le (Nat.pos_pow_of_pos _ (by decide))).2 h1
  rw [Nat.pow_add]
  exact Nat.le_trans (Nat.mul_le_mul_right _ h2) (div_mul_le_roundToSig p n)

/-- Rounding to `p` significant bits is monotone. -/
theorem roundToSig_mono (p : Nat) (hp : 1 ≤ p) {m n : Nat} (h : m ≤ n) :
    roundToSig p m ≤ roundToSig p n := by
  rcases Nat.lt_or_ge (excessBits p m m) (excessBits p n n) with hk | hk
  · have h1 := roundToSig_le_pow p m
    have h2 := pow_le_roundToSig p n hp (by omega)
    have h3 : 2 ^ (p + excessBits p m m) ≤ 2 ^ (p - 1 + excessBits p n n) :=
      Nat.pow_le_pow_right (by decide) (by omega)
    omega
  · have hk2 : excessBits p m m = excessBits p n n :=
      Nat.le_antisymm (excessBits_mono p h) hk
    have hpos : 0 < 2 ^ excessBits p n n := Nat.pos_pow_of_pos _ (by decide)
    have hdm := Nat.div_add_mod m (2 ^ excessBits p n n)
    have hdn := Nat.div_add_mod n (2 ^ excessBits p n n)
    have hrm := Nat.mod_lt m hpos
    have hq : m / 2 ^ excessBits p n n ≤ n / 2 ^ excessBits p n n := Nat.div_le_div_right h
    have hcm := roundToSig_cases p m
    rw [hk2] at hcm
    have hcn := roundToSig_cases p n
    rcases Nat.lt_or_ge (m / 2 ^ excessBits p n n) (n / 2 ^ excessBits p n n) with hlt | hge
    · have h5 : (m / 2 ^ excessBits p n n + 1) * 2 ^ excessBits p n n ≤
          n / 2 ^ excessBits p n n * 2 ^ excessBits p n n := Nat.mul_le_mul_right _ hlt
      have h6 := div_mul_le_roundToSig p n
      have h7 : m / 2 ^ excessBits p n n * 2 ^ excessBits p n n ≤
          (m / 2 ^ excessBits p n n + 1) * 2 ^ excessBits p n n :=
        Nat.mul_le_mul_right _ (Nat.le_succ _)
      rcases hcm with ⟨hr, _⟩ | ⟨hr, _⟩ <;> rw [hr] <;> omega
    · have hqe : m / 2 ^ excessBits p n n = n / 2 ^ excessBits p n n := Nat.le_antisymm hq hge
      rw [hqe] at hcm hdm
      have h7 : n / 2 ^ excessBits p n n * 2 ^ excessBits p n n ≤
          (n / 2 ^ excessBits p n n + 1) * 2 ^ excessBits p n n :=
        Nat.mul_le_mul_right _ (Nat.le_succ _)
      rcases hcm with ⟨hr, _⟩ | ⟨hr, hm1⟩
      · rw [hr]; exact div_mul_le_roundToSig p n
      · rcases hcn with ⟨hs, hn1⟩ | ⟨hs, _⟩
        · have hmn : m = n := by omega
          rw [hmn]
        · rw [hr, hs]

/-! ## Capacity planner -/

theorem buffer_size_scaled_bounds (free_memory : Nat) :
    10 * 2 ^ 23 * (3 * buffer_size free_memory * 8) ≤ 9 * (2 ^ 23 + 1) * free_memory ∧
    10 * (2 * buffer_size free_memory * 8) ≤ 9 * free_memory := by
  have h1 := roundToSig24_le free_memory
  have h2 := roundToSig24_le (roundToSig 24 free_memory * free_memory_percentage_sig)
  have h3 : max_size free_memory * 2 ^ 27 ≤ max_size_scaled free_memory :=
    Nat.div_mul_le_self _ _
  have h4 : buffer_size free_memory * 3 ≤ max_size free_memory := Nat.div_mul_le_self _ _
  unfold max_size_scaled at h3
  unfold free_memory_percentage_sig at h2 h3
  constructor <;> omega

/-- C3, counterexample: with 16777279 bytes free the conversion to `float`
rounds up to 16777280, the product with `0.9f` rounds up to 15099552, and
`3 * buffer_size * sizeof(double) = 15099552` exceeds `0.9 * free_memory =
15099551.1`. -/
theorem C3_three_buffers_exceed_budget :
    buffer_size 16777279 = 629148 ∧
    ¬ ((3 * buffer_size 16777279 * 8 : ℚ) ≤ 0.9 * (16777279 : ℚ)) := by
  have h : buffer_size 16777279 = 629148 := by decide
  refine ⟨h, ?_⟩
  rw [h]
  norm_num

/-- C3, amended: for every `free_memory`, `3 * buffer_size * sizeof(double)`
is at most `0.9 * free_memory * (1 + 2 ^ -23)` (single-precision rounding can
carry it above `0.9 * free_memory`), and the two live buffers fit in the
budget: `2 * buffer_size * sizeof(double) ≤ 0.9 * free_memory`. -/
theorem C3_capacity_budget (free_memory : Nat) :
    (3 * buffer_size free_memory * 8 : ℚ) ≤ 0.9 * (free_memory : ℚ) * (1 + 1 / 2 ^ 23) ∧
    (2 * buffer_size free_memory * 8 : ℚ) ≤ 0.9 * (free_memory : ℚ) := by
  obtain ⟨h1, h2⟩ := buffer_size_scaled_bounds free_memory
  have h1q : ((10 * 2 ^ 23 * (3 * buffer_size free_memory * 8) : Nat) : ℚ) ≤
      ((9 * (2 ^ 23 + 1) * free_memory : Nat) : ℚ) := by exact_mod_cast h1
  have h2q : ((10 * (2 * buffer_size free_memory * 8) : Nat) : ℚ) ≤
      ((9 * free_memory : Nat) : ℚ) := by exact_mod_cast h2
  push_cast at h1q h2q
  constructor
  · have e : (0.9 : ℚ) * (free_memory : ℚ) * (1 + 1 / 2 ^ 23) =
        (9 * (2 ^ 23 + 1) * (free_memory : ℚ)) / (10 * 2 ^ 23) := by
      field_simp; ring
    rw [e, le_div_iff₀ (by norm_num)]
    linarith
  · have e : (0.9 : ℚ) * (free_memory : ℚ) = (9 * (free_memory : ℚ)) / 10 := by
      field_simp; ring
    rw [e, le_div_iff₀ (by norm_num)]
    linarith

/-- C4, counterexample: with `free_memory = 24`, three elements worth of
memory, `max_size = 2` and `buffer_size = 0`. -/
theorem C4_zero_buffer_at_24 :
    3 * 8 ≤ 24 ∧ max_size 24 = 2 ∧ ¬ (0 < buffer_size 24) := by
  decide

/-- C4, amended: for every `free_memory` of at least 27 bytes the computed
`buffer_size` is strictly positive. -/
theorem C4_buffer_size_pos (free_memory : Nat) (h : 27 ≤ free_memory) :
    0 < buffer_size free_memory := by
  have h1 := roundToSig24_ge free_memory
  have h2 := roundToSig24_ge (roundToSig 24 free_memory * free_memory_percentage_sig)
  unfold free_memory_percentage_sig at h2
  have h3 : 3 * 2 ^ 27 ≤ max_size_scaled free_memory := by
    unfold max_size_scaled free_memory_percentage_sig
    omega
  have h4 : 3 ≤ max_size free_memory := by
    unfold max_size
    exact (Nat.le_div_iff_mul_le (by norm_num)).2 h3
  unfold buffer_size
  exact Nat.div_pos h4 (by norm_num)

theorem C4_buffer_size_pos_witness : 27 ≤ 27 ∧ 0 < buffer_size 27 :=
  ⟨Nat.le_refl 27, C4_buffer_size_pos 27 (Nat.le_refl 27)⟩

/-! ## Grid sizing -/

theorem iDivUp_sixteen (a : Nat) (h : a < 2 ^ 32) : iDivUp a 16 = (a + 15) / 16 := by
  unfold iDivUp
  split <;> omega

theorem launch_groups_of_lt (M : Nat) (h : M < 2 ^ 32) :
    launch_groups M = (M + 15) / 16 := by
  unfold launch_groups g_blockSize
  rw [Nat.mod_eq_of_lt h]
  exact iDivUp_sixteen M h

theorem launch_groups_mul_le (M : Nat) : launch_groups M * 16 ≤ 2 ^ 32 := by
  unfold launch_groups g_blockSize
  rw [iDivUp_sixteen _ (Nat.mod_lt _ (by norm_num))]
  have := Nat.mod_lt M (show 0 < 2 ^ 32 by norm_num)
  omega

/-! ## Fault predicate -/

theorem device_static_cast_int_of_in_range (x : Dbl) (h : in_int_range x) :
    device_static_cast_int x = truncate x := by
  unfold in_int_range at h
  unfold device_static_cast_int
  rw [if_neg (by omega), if_neg (by omega)]

theorem is_even_iff_of_in_range (x : Dbl) (h : in_int_range x) :
    is_even x = true ↔ Even (truncate x) := by
  unfold is_even
  rw [device_static_cast_int_of_in_range x h, beq_iff_eq, even_iff_two_dvd,
    Int.dvd_iff_tmod_eq_zero]

theorem truncate_natCast (n : Nat) : truncate (n : ℚ) = (n : Int) := by
  unfold truncate
  rw [if_pos (Nat.cast_nonneg n)]
  exact Int.floor_natCast n

/-- C8, counterexample: `2147483648.0` truncates to the even integer
`2147483648`, which no `int` holds; the device conversion yields `INT_MAX`,
which is odd, and the predicate returns `false`. -/
theorem C8_is_even_out_of_range :
    Even (truncate 2147483648) ∧ is_even 2147483648 = false := by
  have h : truncate 2147483648 = 2147483648 := by
    have := truncate_natCast 2147483648
    simpa using this
  refine ⟨?_, ?_⟩
  · rw [h]; decide
  · unfold is_even device_static_cast_int
    rw [h]
    decide

/-- C8, amended: for every double `x`, negative and non-integer values
included, whose truncation toward zero is representable in a 32-bit `int`,
`is_even x` is `true` exactly when the truncated integer is even; the
predicate is a function of `x` alone. -/
theorem C8_is_even_parity (x : Dbl) (h : in_int_range x) :
    (is_even x = true ↔ Even (truncate x)) ∧ (∀ y : Dbl, y = x → is_even y = is_even x) :=
  ⟨is_even_iff_of_in_range x h, fun _ hy => by rw [hy]⟩

theorem C8_is_even_parity_witness :
    in_int_range (-7 / 2) ∧
    ((is_even (-7 / 2) = true ↔ Even (truncate (-7 / 2))) ∧
      (∀ y : Dbl, y = -7 / 2 → is_even y = is_even (-7 / 2))) := by
  have ht : truncate (-7 / 2) = -3 := by
    unfold truncate
    rw [if_neg (by norm_num)]
    rw [Int.ceil_eq_iff]
    norm_num
  have hr : in_int_range (-7 / 2) := by
    unfold in_int_range
    rw [ht]
    decide
  exact ⟨hr, C8_is_even_parity (-7 / 2) hr⟩

/-! ## Error check -/

/-- C9: `_checkError` throws exactly when the status code is not the success
code; otherwise it returns normally without effect; the thrown message is
`Error (file:line): err` for an empty description and
`Error in desc (file:line): err` otherwise. -/
theorem C9_checkError (cudaGetErrorString : Nat → String) (rCode : Nat) (file : String)
    (line : Int) (desc : String) :
    ((∃ msg, _checkError cudaGetErrorString rCode file line desc = Except.error msg) ↔
      rCode ≠ CUDA_SUCCESS) ∧
    (_checkError cudaGetErrorString rCode file line desc =
      if rCode = CUDA_SUCCESS then Except.ok ()
      else if desc = "" then
        Except.error ("Error (" ++ file ++ ":" ++ toString line ++ "): " ++
          cudaGetErrorString rCode)
      else
        Except.error ("Error in " ++ desc ++ " (" ++ file ++ ":" ++ toString line ++ "): " ++
          cudaGetErrorString rCode)) := by
  unfold _checkError
  by_cases h : rCode = CUDA_SUCCESS
  · simp [h]
  · by_cases hd : desc = ""
    · simp [h, hd]
    · simp [h, hd]

/-! ## Aggregation -/

theorem static_cast_int_natCast (n : Nat) (h : (n : Int) ≤ INT_MAX) :
    static_cast_int (n : ℚ) = some (n : Int) := by
  unfold static_cast_int
  have hr : in_int_range (n : ℚ) := by
    unfold in_int_range
    rw [truncate_natCast]
    constructor
    · unfold INT_MIN; omega
    · exact h
  rw [if_pos hr, truncate_natCast]

theorem static_cast_int_natCast_none (n : Nat) (h : INT_MAX < (n : Int)) :
    static_cast_int (n : ℚ) = none := by
  unfold static_cast_int
  have hr : ¬ in_int_range (n : ℚ) := by
    unfold in_int_range
    rw [truncate_natCast]
    omega
  rw [if_neg hr]

theorem add_errors_natCast (errors_count k : Nat) (h : (k : Int) ≤ INT_MAX) :
    add_errors errors_count (k : ℚ) = some ((errors_count + k) % 2 ^ 32) := by
  unfold add_errors
  rw [static_cast_int_natCast k h]
  simp only [Option.map_some']
  congr 2
  unfold INT_MAX at h
  omega

theorem sum_of_flags (l : List Dbl) (h : ∀ x ∈ l, x = 0 ∨ x = 1) :
    l.sum = (l.count 1 : ℚ) := by
  induction l with
  | nil => simp
  | cons a t ih =>
    have ht := ih (fun x hx => h x (List.mem_cons_of_mem a hx))
    rcases h a (List.mem_cons_self a t) with ha | ha
    · subst ha
      rw [List.sum_cons, ht, List.count_cons_of_ne (by norm_num)]
      simp
    · subst ha
      rw [List.sum_cons, ht, List.count_cons_self]
      push_cast
      ring

/-- C7, counterexamples: an error count of `4294967295` followed by an
iteration with one raised flag wraps to `0`; and `2147483648` raised flags sum
to a value that no `int` holds, so the conversion on line 139 is undefined. -/
theorem C7_error_count_wraps :
    (∀ x ∈ [(1 : Dbl)].take 1, x = 0 ∨ x = 1) ∧ ([(1 : Dbl)].take 1).count 1 = 1 ∧
    aggregate 4294967295 [1] 1 = some 0 ∧
    aggregate 0 (List.replicate 2147483648 1) 2147483648 = none := by
  refine ⟨by simp, by simp, ?_, ?_⟩
  · have h := add_errors_natCast 4294967295 1 (by decide)
    simpa [aggregate, reduce] using h
  · have h := static_cast_int_natCast_none 2147483648 (by decide)
    unfold aggregate reduce add_errors
    rw [List.take_replicate, Nat.min_self, List.sum_replicate]
    simp only [nsmul_eq_mul, mul_one]
    rw [h]
    rfl

/-- C7, amended: if the first `new_size` fault flags hold exactly `k` entries
equal to `1.0` and the others `0.0`, `k` is representable in `int` and
`errors_count + k` is below `2 ^ 32`, then the error count after the
aggregation is its former value plus `k`; in particular it does not decrease. -/
theorem C7_aggregate_adds (errors_count : Nat) (d_B : List Dbl) (new_size k : Nat)
    (hflags : ∀ x ∈ d_B.take new_size, x = 0 ∨ x = 1)
    (hk : (d_B.take new_size).count 1 = k)
    (hint : (k : Int) ≤ INT_MAX) (hwrap : errors_count + k < 2 ^ 32) :
    aggregate errors_count d_B new_size = some (errors_count + k) ∧
    errors_count ≤ errors_count + k := by
  refine ⟨?_, Nat.le_add_right _ _⟩
  unfold aggregate reduce
  rw [sum_of_flags _ hflags, hk, add_errors_natCast errors_count k hint,
    Nat.mod_eq_of_lt hwrap]

theorem C7_aggregate_adds_witness :
    (∀ x ∈ [(1 : Dbl), 0, 1, 7].take 3, x = 0 ∨ x = 1) ∧
    ([(1 : Dbl), 0, 1, 7].take 3).count 1 = 2 ∧
    ((2 : Nat) : Int) ≤ INT_MAX ∧ 40 + 2 < 2 ^ 32 ∧
    (aggregate 40 [1, 0, 1, 7] 3 = some (40 + 2) ∧ 40 ≤ 40 + 2) :=
  have h1 : ∀ x ∈ [(1 : Dbl), 0, 1, 7].take 3, x = 0 ∨ x = 1 := by simp
  have h2 : ([(1 : Dbl), 0, 1, 7].take 3).count 1 = 2 := by simp [List.count_cons]
  ⟨h1, h2, by decide, by decide, C7_aggregate_adds 40 [1, 0, 1, 7] 3 2 h1 h2 (by decide) (by decide)⟩

/-! ## Generation and sorting -/

theorem toDouble_of_lt (i : Nat) (h : i < 2 ^ 53) : toDouble i = (i : ℚ) := by
  unfold toDouble
  rw [roundToSig_of_lt 53 i h]

theorem toDouble_mono {i j : Nat} (h : i ≤ j) : toDouble i ≤ toDouble j := by
  unfold toDouble
  exact_mod_cast roundToSig_mono 53 (by decide) h

theorem toDouble_nonneg (i : Nat) : 0 ≤ toDouble i := by
  unfold toDouble
  exact Nat.cast_nonneg _

theorem length_sequence (v : List Dbl) : (sequence v).length = v.length := by
  simp [sequence]

theorem sequence_sorted (v : List Dbl) : (sequence v).Sorted (fun a b => a ≤ b) := by
  unfold sequence List.Sorted
  rw [List.pairwise_map]
  exact (List.pairwise_lt_range v.length).imp (fun h => toDouble_mono (Nat.le_of_lt h))

theorem sort_less_sort_greater (l : List Dbl) (h : l.Sorted (fun a b => a ≤ b)) :
    sort_less (sort_greater l) = l := by
  unfold sort_less sort_greater
  have hp : (List.insertionSort (fun a b : Dbl => a ≤ b)
      (List.insertionSort (fun a b : Dbl => b ≤ a) l)).Perm l :=
    (List.perm_insertionSort _ _).trans (List.perm_insertionSort _ _)
  have hs := List.sorted_insertionSort (fun a b : Dbl => a ≤ b)
    (List.insertionSort (fun a b : Dbl => b ≤ a) l)
  exact List.eq_of_perm_of_sorted hp hs h

/-- After the two sorts the primary buffer is again the generated sequence,
and it coincides with the secondary buffer when both have the same length. -/
theorem generate_sorted_eq (s : LoopState) (h : s.d_B.length = s.d_A.length) :
    generate_sorted s = (sequence s.d_A, sequence s.d_A) := by
  unfold generate_sorted
  simp only []
  rw [sort_less_sort_greater _ (sequence_sorted _)]
  have : sequence s.d_B = sequence s.d_A := by unfold sequence; rw [h]
  rw [this]

/-! ## Partition -/

theorem zip_self_filter_map (l : List Dbl) (pred : Dbl → Bool) :
    ((l.zip l).filter (fun p => !pred p.2)).map Prod.fst = l.filter (fun x => !pred x) := by
  induction l with
  | nil => rfl
  | cons a t ih =>
    simp only [List.zip_cons_cons, List.filter_cons]
    by_cases h : pred a = true
    · simp [h, ih]
    · simp [h, ih]

theorem remove_if_self (l : List Dbl) (pred : Dbl → Bool) :
    remove_if l l pred =
      (l.filter (fun x => !pred x) ++ l.drop (l.filter (fun x => !pred x)).length,
        (l.filter (fun x => !pred x)).length) := by
  unfold remove_if
  simp only [zip_self_filter_map]

theorem partition_step_eq (s : LoopState) (h : s.d_B.length = s.d_A.length) :
    partition_step s =
      { d_A := (sequence s.d_A).filter (fun x => !is_even x) ++
          (sequence s.d_A).drop ((sequence s.d_A).filter (fun x => !is_even x)).length,
        d_B := sequence s.d_A,
        new_size := ((sequence s.d_A).filter (fun x => !is_even x)).length } := by
  unfold partition_step
  simp only [generate_sorted_eq s h, remove_if_self]

/-! ## Kernel launch -/

theorem compare_at_fst (A F : List Dbl) (N id : Nat) : (compare_at A F N id).1 = A := by
  unfold compare_at
  split <;> rfl

theorem compare_at_length (A F : List Dbl) (N id : Nat) :
    (compare_at A F N id).2.length = F.length := by
  unfold compare_at
  split
  · rfl
  · simp

theorem compare_at_getElem?_ne (A F : List Dbl) (N id j : Nat) (h : id ≠ j) :
    (compare_at A F N id).2[j]? = F[j]? := by
  unfold compare_at
  split
  · rfl
  · simp only []
    rw [List.getElem?_set_ne h]

theorem compare_at_getElem?_self (A F : List Dbl) (N id : Nat) (hN : id < N)
    (hF : id < F.length) :
    (compare_at A F N id).2[id]? = some (if is_even (A.getD id 0) then 1 else 0) := by
  unfold compare_at
  rw [if_neg (by omega)]
  simp only []
  rw [List.getElem?_set_self hF]
  by_cases he : is_even (A.getD id 0) <;> simp [he]

theorem compare_at_nonneg (A F : List Dbl) (N id : Nat) (h : ∀ x ∈ F, 0 ≤ x) :
    ∀ x ∈ (compare_at A F N id).2, 0 ≤ x := by
  unfold compare_at
  split
  · exact h
  · intro x hx
    rcases List.mem_or_eq_of_mem_set hx with hm | he
    · exact h x hm
    · rw [he]; exact Nat.cast_nonneg _

theorem foldl_compare_step (N Bd : Nat) (A F : List Dbl) (bt : Nat × Nat)
    (l : List (Nat × Nat)) :
    (bt :: l).foldl (fun mem bt => compare mem.1 mem.2 N bt.1 Bd bt.2) (A, F) =
      l.foldl (fun mem bt => compare mem.1 mem.2 N bt.1 Bd bt.2)
        (A, (compare_at A F N ((bt.1 * Bd + bt.2) % 2 ^ 32)).2) := by
  rw [List.foldl_cons]
  congr 1
  unfold compare
  exact Prod.ext (compare_at_fst _ _ _ _) rfl

theorem foldl_compare_fst (N Bd : Nat) (A : List Dbl) (l : List (Nat × Nat)) :
    ∀ F : List Dbl,
      (l.foldl (fun mem bt => compare mem.1 mem.2 N bt.1 Bd bt.2) (A, F)).1 = A := by
  induction l with
  | nil => intro F; rfl
  | cons bt t ih => intro F; rw [foldl_compare_step]; exact ih _

theorem foldl_compare_length (N Bd : Nat) (A : List Dbl) (l : List (Nat × Nat)) :
    ∀ F : List Dbl,
      (l.foldl (fun mem bt => compare mem.1 mem.2 N bt.1 Bd bt.2) (A, F)).2.length =
        F.length := by
  induction l with
  | nil => intro F; rfl
  | cons bt t ih => intro F; rw [foldl_compare_step, ih, compare_at_length]

theorem foldl_compare_nonneg (N Bd : Nat) (A : List Dbl) (l : List (Nat × Nat)) :
    ∀ F : List Dbl, (∀ x ∈ F, 0 ≤ x) →
      ∀ x ∈ (l.foldl (fun mem bt => compare mem.1 mem.2 N bt.1 Bd bt.2) (A, F)).2, 0 ≤ x := by
  induction l with
  | nil => intro F h; exact h
  | cons bt t ih =>
    intro F h
    rw [foldl_compare_step]
    exact ih _ (compare_at_nonneg A F N _ h)

/-- A slot that no launched work-item addresses keeps its content. -/
theorem foldl_compare_untouched (N Bd j : Nat) (A : List Dbl) (l : List (Nat × Nat)) :
    ∀ F : List Dbl, (∀ bt ∈ l, (bt.1 * Bd + bt.2) % 2 ^ 32 ≠ j) →
      (l.foldl (fun mem bt => compare mem.1 mem.2 N bt.1 Bd bt.2) (A, F)).2[j]? = F[j]? := by
  induction l with
  | nil => intro F _; rfl
  | cons bt t ih =>
    intro F h
    rw [foldl_compare_step, ih _ (fun b hb => h b (List.mem_cons_of_mem _ hb))]
    exact compare_at_getElem?_ne A F N _ j (h bt (List.mem_cons_self _ _))

/-- A slot below `N` that some launched work-item addresses holds the flag of
the corresponding element of `A`. -/
theorem foldl_compare_written (N Bd j : Nat) (A : List Dbl) (hN : j < N)
    (l : List (Nat × Nat)) :
    ∀ F : List Dbl, j < F.length → (∃ bt ∈ l, (bt.1 * Bd + bt.2) % 2 ^ 32 = j) →
      (l.foldl (fun mem bt => compare mem.1 mem.2 N bt.1 Bd bt.2) (A, F)).2[j]? =
        some (if is_even (A.getD j 0) then 1 else 0) := by
  induction l with
  | nil => intro F _ h; obtain ⟨bt, hbt, _⟩ := h; cases hbt
  | cons bt t ih =>
    intro F hF h
    rw [foldl_compare_step]
    by_cases hc : ∃ b ∈ t, (b.1 * Bd + b.2) % 2 ^ 32 = j
    · exact ih _ (by rw [compare_at_length]; exact hF) hc
    · have hbt : (bt.1 * Bd + bt.2) % 2 ^ 32 = j := by
        obtain ⟨b, hb, hbj⟩ := h
        rcases List.mem_cons.1 hb with he | hm
        · rw [← he]; exact hbj
        · exact absurd ⟨b, hm, hbj⟩ hc
      rw [foldl_compare_untouched N Bd j A t _ (fun b hb hbj => hc ⟨b, hb, hbj⟩), hbt]
      exact compare_at_getElem?_self A F N j hN hF

theorem launch_compare_fst (G Bd N : Nat) (A F : List Dbl) :
    (launch_compare G Bd A F N).1 = A :=
  foldl_compare_fst N Bd A _ F

theorem launch_compare_length (G Bd N : Nat) (A F : List Dbl) :
    (launch_compare G Bd A F N).2.length = F.length :=
  foldl_compare_length N Bd A _ F

theorem launch_compare_nonneg (G Bd N : Nat) (A F : List Dbl) (h : ∀ x ∈ F, 0 ≤ x) :
    ∀ x ∈ (launch_compare G Bd A F N).2, 0 ≤ x :=
  foldl_compare_nonneg N Bd A _ F h

/-- Slots at or beyond `gridDim * 16` are not written by the launch (as long
as the index arithmetic does not wrap). -/
theorem launch_compare_beyond_grid (G N j : Nat) (A F : List Dbl)
    (hG : G * 16 ≤ 2 ^ 32) (hj : G * 16 ≤ j) :
    (launch_compare G 16 A F N).2[j]? = F[j]? := by
  unfold launch_compare
  apply foldl_compare_untouched
  intro bt hbt
  obtain ⟨b, t⟩ := bt
  have hbt := List.mem_product.1 hbt
  rw [List.mem_range, List.mem_range] at hbt
  simp only []
  have : b * 16 + t < 2 ^ 32 := by omega
  rw [Nat.mod_eq_of_lt this]
  omega

/-- Slots below both `N` and `gridDim * 16` receive the fault flag. -/
theorem launch_compare_within_grid (G N j : Nat) (A F : List Dbl)
    (hG : G * 16 ≤ 2 ^ 32) (hj : j < G * 16) (hN : j < N) (hF : j < F.length) :
    (launch_compare G 16 A F N).2[j]? = some (if is_even (A.getD j 0) then 1 else 0) := by
  unfold launch_compare
  apply foldl_compare_written N 16 j A hN _ F hF
  refine ⟨(j / 16, j % 16), ?_, ?_⟩
  · apply List.mem_product.2
    rw [List.mem_range, List.mem_range]
    constructor
    · omega
    · exact Nat.mod_lt _ (by decide)
  · simp only []
    have : j / 16 * 16 + j % 16 = j := by omega
    rw [this]
    exact Nat.mod_eq_of_lt (by omega)

/-! ## The predicate on the generated sequence -/

theorem in_int_range_natCast (i : Nat) (h : i < 2 ^ 31) : in_int_range (i : ℚ) := by
  unfold in_int_range INT_MIN INT_MAX
  rw [truncate_natCast]
  omega

theorem is_even_natCast_of_lt (i : Nat) (h : i < 2 ^ 31) :
    is_even (i : ℚ) = decide (i % 2 = 0) := by
  unfold is_even
  rw [device_static_cast_int_of_in_range _ (in_int_range_natCast i h), truncate_natCast,
    Int.tmod_eq_emod (Int.ofNat_nonneg i) (by decide)]
  rw [Bool.eq_iff_iff, beq_iff_eq, decide_eq_true_iff]
  omega

theorem is_even_natCast_of_ge (i : Nat) (h : 2 ^ 31 ≤ i) : is_even (i : ℚ) = false := by
  unfold is_even device_static_cast_int
  rw [truncate_natCast]
  unfold INT_MIN INT_MAX
  rw [if_neg (by omega), if_pos (by omega)]
  decide

/-- Number of elements of `0, 1, ..., n - 1` that the partition retains: the odd
ones below `2 ^ 31` and every one from `2 ^ 31` on. -/
theorem length_filter_sequence (n : Nat) (hn : n ≤ 2 ^ 53) :
    (((List.range n).map toDouble).filter (fun x => !is_even x)).length =
      if n ≤ 2 ^ 31 then n / 2 else n - 2 ^ 30 := by
  induction n with
  | zero => rfl
  | succ m ih =>
    have ihm := ih (by omega)
    rw [List.range_succ, List.map_append, List.filter_append, List.length_append, ihm,
      List.map_singleton, toDouble_of_lt m (by omega)]
    rcases Nat.lt_or_ge m (2 ^ 31) with hlt | hge
    · rw [if_pos (show m ≤ 2 ^ 31 by omega), if_pos (show m + 1 ≤ 2 ^ 31 by omega)]
      by_cases hp : m % 2 = 0
      · simp [List.filter_cons, is_even_natCast_of_lt m hlt, hp]
        omega
      · simp [List.filter_cons, is_even_natCast_of_lt m hlt, hp]
        omega
    · rw [if_neg (show ¬ m + 1 ≤ 2 ^ 31 by omega)]
      simp only [List.filter_cons, is_even_natCast_of_ge m hge, Bool.not_false, if_true,
        List.filter_nil, List.length_singleton]
      split_ifs <;> omega

theorem partition_step_new_size (s : LoopState) (h : s.d_B.length = s.d_A.length)
    (hn : s.d_A.length ≤ 2 ^ 53) :
    (partition_step s).new_size =
      if s.d_A.length ≤ 2 ^ 31 then s.d_A.length / 2 else s.d_A.length - 2 ^ 30 := by
  rw [partition_step_eq s h]
  exact length_filter_sequence _ hn

theorem partition_step_take (s : LoopState) (h : s.d_B.length = s.d_A.length) :
    (partition_step s).d_A.take (partition_step s).new_size =
      (sequence s.d_A).filter (fun x => !is_even x) := by
  rw [partition_step_eq s h]
  simp only []
  rw [List.take_left']
  rfl

/-- C10: for a buffer size `N ≤ 2 ^ 31`, every element of the stencil and every
retained element of the primary buffer read by the kernel has its truncation
in the range of a 32-bit `int`, so the conversion inside `is_even` is defined
on each of them. -/
theorem C10_predicate_inputs_in_range (s : LoopState) (h : s.d_B.length = s.d_A.length)
    (hN : s.d_A.length ≤ 2 ^ 31) :
    (∀ x ∈ (generate_sorted s).2, in_int_range x) ∧
    (∀ x ∈ (partition_step s).d_A.take (partition_step s).new_size, in_int_range x) := by
  have hseq : ∀ x ∈ sequence s.d_A, in_int_range x := by
    intro x hx
    unfold sequence at hx
    obtain ⟨i, hi, rfl⟩ := List.mem_map.1 hx
    rw [List.mem_range] at hi
    rw [toDouble_of_lt i (by omega)]
    exact in_int_range_natCast i (by omega)
  constructor
  · rw [generate_sorted_eq s h]
    exact hseq
  · rw [(partition_step_take s h)]
    intro x hx
    exact hseq x (List.mem_filter.1 hx).1

theorem C10_predicate_inputs_in_range_witness :
    (initial_state 4).d_B.length = (initial_state 4).d_A.length ∧
    (initial_state 4).d_A.length ≤ 2 ^ 31 ∧
    ((∀ x ∈ (generate_sorted (initial_state 4)).2, in_int_range x) ∧
    (∀ x ∈ (partition_step (initial_state 4)).d_A.take
      (partition_step (initial_state 4)).new_size, in_int_range x)) :=
  ⟨rfl, by decide, C10_predicate_inputs_in_range (initial_state 4) rfl (by decide)⟩

/-! ## The iteration on a buffer of 10307921237 elements -/

theorem length_initial_state (N : Nat) :
    (initial_state N).d_A.length = N ∧ (initial_state N).d_B.length = N := by
  simp [initial_state]

theorem kernel_step_new_size (s : LoopState) :
    (kernel_step s).new_size = (partition_step s).new_size := rfl

theorem kernel_step_d_B (s : LoopState) :
    (kernel_step s).d_B =
      (launch_compare (launch_groups (partition_step s).new_size) 16 (partition_step s).d_A
        (partition_step s).d_B (partition_step s).new_size).2 := rfl

theorem sequence_getElem? (v : List Dbl) (j : Nat) (hj : j < v.length) :
    (sequence v)[j]? = some (toDouble j) := by
  unfold sequence
  rw [List.getElem?_map, List.getElem?_range hj]
  rfl

theorem sequence_nonneg (v : List Dbl) : ∀ x ∈ sequence v, 0 ≤ x := by
  intro x hx
  unfold sequence at hx
  obtain ⟨i, _, rfl⟩ := List.mem_map.1 hx
  exact toDouble_nonneg i

theorem kernel_step_nonneg (s : LoopState) (h : s.d_B.length = s.d_A.length) :
    ∀ x ∈ (kernel_step s).d_B, 0 ≤ x := by
  rw [kernel_step_d_B]
  apply launch_compare_nonneg
  rw [partition_step_eq s h]
  exact sequence_nonneg _

theorem buffer_size_256GiB : buffer_size 274877906944 = 10307921237 := by decide

/-- A stale slot: beyond the launched grid the secondary buffer still holds
the value written by `thrust::sequence`. -/
theorem kernel_step_stale (s : LoopState) (h : s.d_B.length = s.d_A.length) (j : Nat)
    (hj : launch_groups (partition_step s).new_size * 16 ≤ j) (hl : j < s.d_A.length) :
    (kernel_step s).d_B[j]? = some (toDouble j) := by
  rw [kernel_step_d_B, launch_compare_beyond_grid _ _ _ _ _ (launch_groups_mul_le _) hj,
    partition_step_eq s h]
  exact sequence_getElem? _ j hl

/-- C1, evaluation at a failing input: 256 GiB of free memory give
`buffer_size = 10307921237`; the partition retains 9234179413 elements, the
launch gets `40265302` groups, which cover only the first 644244832 of them,
and slot `3000000000` of the fault-flag buffer still holds `3000000000.0`.
The reduction is therefore not zero, and its conversion to `int` on line 139
is out of range. -/
theorem C1_stale_flags_on_large_buffer :
    buffer_size 274877906944 = 10307921237 ∧
    (kernel_step (initial_state 10307921237)).new_size = 9234179413 ∧
    launch_groups 9234179413 * 16 = 644244832 ∧
    (kernel_step (initial_state 10307921237)).d_B[3000000000]? = some 3000000000 ∧
    reduce ((kernel_step (initial_state 10307921237)).d_B.take
      (kernel_step (initial_state 10307921237)).new_size) ≠ 0 ∧
    loop_body (initial_state 10307921237) = none := by
  have hlen := length_initial_state 10307921237
  have heq : (initial_state 10307921237).d_B.length = (initial_state 10307921237).d_A.length := by
    rw [hlen.1, hlen.2]
  have hsize : (partition_step (initial_state 10307921237)).new_size = 9234179413 := by
    rw [partition_step_new_size _ heq (by rw [hlen.1]; decide), hlen.1]
    decide
  have hgroups : launch_groups 9234179413 * 16 = 644244832 := by decide
  have hslot : (kernel_step (initial_state 10307921237)).d_B[3000000000]? =
      some 3000000000 := by
    rw [kernel_step_stale _ heq 3000000000 (by rw [hsize, hgroups]; decide)
      (by rw [hlen.1]; decide), toDouble_of_lt _ (by decide)]
    norm_num
  have hmem : (3000000000 : ℚ) ∈ (kernel_step (initial_state 10307921237)).d_B.take
      (kernel_step (initial_state 10307921237)).new_size := by
    apply List.getElem?_mem (n := 3000000000)
    rw [kernel_step_new_size, hsize, List.getElem?_take_of_lt (by decide)]
    exact hslot
  have hnonneg : ∀ x ∈ (kernel_step (initial_state 10307921237)).d_B.take
      (kernel_step (initial_state 10307921237)).new_size, 0 ≤ x :=
    fun x hx => kernel_step_nonneg _ heq x (List.mem_of_mem_take hx)
  have hsum : (3000000000 : ℚ) ≤ reduce ((kernel_step (initial_state 10307921237)).d_B.take
      (kernel_step (initial_state 10307921237)).new_size) :=
    List.single_le_sum hnonneg _ hmem
  refine ⟨buffer_size_256GiB, (kernel_step_new_size _).trans hsize, hgroups, hslot, ?_, ?_⟩
  · intro h0
    rw [h0] at hsum
    norm_num at hsum
  · unfold loop_body aggregate add_errors static_cast_int
    have hr : ¬ in_int_range (reduce ((kernel_step (initial_state 10307921237)).d_B.take
        (kernel_step (initial_state 10307921237)).new_size)) := by
      unfold in_int_range truncate INT_MAX
      rw [if_pos (le_trans (by norm_num) hsum)]
      have : (3000000000 : Int) ≤ ⌊reduce ((kernel_step (initial_state 10307921237)).d_B.take
          (kernel_step (initial_state 10307921237)).new_size)⌋ :=
        Int.le_floor.2 (by exact_mod_cast hsum)
      omega
    simp only [hr, if_false, Option.map_none']

/-- C6, evaluation at a failing input: for the partition length `9234179413`
(the one of a buffer of 10307921237 elements), the conversion to
`std::uint32_t` leaves `644244821`, so `40265302` groups are launched instead
of `ceil(9234179413 / 16) = 577136214`, and `groups * 16 < M`. -/
theorem C6_groups_truncated :
    (partition_step (initial_state 10307921237)).new_size = 9234179413 ∧
    launch_groups 9234179413 = 40265302 ∧
    ⌈(9234179413 : ℚ) / 16⌉₊ = 577136214 ∧
    ¬ (9234179413 ≤ launch_groups 9234179413 * 16) := by
  have hlen := length_initial_state 10307921237
  have heq : (initial_state 10307921237).d_B.length = (initial_state 10307921237).d_A.length := by
    rw [hlen.1, hlen.2]
  refine ⟨?_, by decide, ?_, by decide⟩
  · rw [partition_step_new_size _ heq (by rw [hlen.1]; decide), hlen.1]
    decide
  · rw [Nat.ceil_eq_iff (by decide)]
    norm_num

/-! ## The iteration on buffers whose partition length fits in 32 bits -/

theorem partition_step_length (s : LoopState) (h : s.d_B.length = s.d_A.length) :
    (partition_step s).new_size ≤ s.d_A.length ∧
    (partition_step s).d_A.length = s.d_A.length ∧
    (partition_step s).d_B.length = s.d_A.length := by
  rw [partition_step_eq s h]
  simp only []
  have hle : ((sequence s.d_A).filter (fun x => !is_even x)).length ≤ s.d_A.length := by
    rw [← length_sequence s.d_A]
    exact List.length_filter_le _ _
  refine ⟨hle, ?_, length_sequence _⟩
  rw [List.length_append, List.length_drop, length_sequence]
  omega

/-- When the partition length is below `2 ^ 32`, the launch covers every
retained element and each of the first `new_size` fault flags is `0.0`. -/
theorem kernel_step_flags_zero (s : LoopState) (h : s.d_B.length = s.d_A.length)
    (hM : (partition_step s).new_size < 2 ^ 32) :
    (kernel_step s).d_B.take (kernel_step s).new_size =
      List.replicate (kernel_step s).new_size 0 := by
  obtain ⟨hle, hlA, hlB⟩ := partition_step_length s h
  have hlen : (kernel_step s).d_B.length = s.d_A.length := by
    rw [kernel_step_d_B, launch_compare_length, hlB]
  apply List.ext_getElem?
  intro j
  rw [kernel_step_new_size]
  by_cases hj : j < (partition_step s).new_size
  · rw [List.getElem?_take_of_lt hj, List.getElem?_replicate, if_pos hj, kernel_step_d_B,
      launch_compare_within_grid _ _ _ _ _ (launch_groups_mul_le _)
        (by rw [launch_groups_of_lt _ hM]; omega) hj (by omega)]
    have hmem : (partition_step s).d_A.getD j 0 ∈
        (partition_step s).d_A.take (partition_step s).new_size := by
      apply List.getElem?_mem (n := j)
      rw [List.getElem?_take_of_lt hj, List.getD_eq_getElem?_getD,
        List.getElem?_eq_getElem (by omega)]
      rfl
    rw [partition_step_take s h] at hmem
    have hne : is_even ((partition_step s).d_A.getD j 0) = false := by
      simpa using (List.mem_filter.1 hmem).2
    rw [hne]
    rfl
  · rw [List.getElem?_replicate, if_neg hj, List.getElem?_eq_none]
    rw [List.length_take]
    omega

theorem add_errors_zero (errors_count : Nat) (h : errors_count < 2 ^ 32) :
    add_errors errors_count 0 = some errors_count := by
  have := add_errors_natCast errors_count 0 (by decide)
  rw [Nat.add_zero, Nat.mod_eq_of_lt h] at this
  simpa using this

/-- One iteration on a fault-free device: when the partition length is below
`2 ^ 32` the reduction is zero and the error count is unchanged. -/
theorem loop_body_fault_free (s : LoopState) (h : s.d_B.length = s.d_A.length)
    (hM : (partition_step s).new_size < 2 ^ 32) (he : s.errors_count < 2 ^ 32) :
    reduce ((kernel_step s).d_B.take (kernel_step s).new_size) = 0 ∧
    loop_body s =
      some { d_A := (kernel_step s).d_A, d_B := (kernel_step s).d_B,
             errors_count := s.errors_count } := by
  have hz : reduce ((kernel_step s).d_B.take (kernel_step s).new_size) = 0 := by
    unfold reduce
    rw [kernel_step_flags_zero s h hM, List.sum_replicate]
    simp
  refine ⟨hz, ?_⟩
  unfold loop_body aggregate
  simp only []
  rw [hz, add_errors_zero _ he]
  rfl

/-- A whole run on a fault-free device with a buffer size below
`2 ^ 32 + 2 ^ 30`: after any number of iterations the error count is still 0. -/
theorem run_fault_free (N : Nat) (hN : N < 5368709120) (iterations : Nat) :
    ∀ s : LoopState, s.d_A.length = N → s.d_B.length = N → s.errors_count = 0 →
      ∃ t, run iterations s = some t ∧ t.errors_count = 0 := by
  induction iterations with
  | zero => intro s _ _ he; exact ⟨s, rfl, he⟩
  | succ k ih =>
    intro s hA hB he
    have h : s.d_B.length = s.d_A.length := by rw [hA, hB]
    obtain ⟨_, hlA, hlB⟩ := partition_step_length s h
    have hM : (partition_step s).new_size < 2 ^ 32 := by
      rw [partition_step_new_size s h (by omega), hA]
      split_ifs <;> omega
    obtain ⟨_, hb⟩ := loop_body_fault_free s h hM (by rw [he]; decide)
    unfold run
    rw [hb, Option.some_bind]
    apply ih
    · show (kernel_step s).d_A.length = N
      unfold kernel_step
      simp only []
      rw [launch_compare_fst, hlA, hA]
    · show (kernel_step s).d_B.length = N
      rw [kernel_step_d_B, launch_compare_length, hlB, hA]
    · exact he

/-! ## The code's predicate and the predicate of the specification -/

theorem is_even_eq_is_faulty (x : Dbl) (h : in_int_range x) : is_even x = is_faulty x := by
  rw [Bool.eq_iff_iff, is_even_iff_of_in_range x h]
  unfold is_faulty
  rw [beq_iff_eq, Int.even_iff]

theorem is_faulty_two_pow_31 : is_faulty 2147483648 = true := by
  have h : truncate 2147483648 = 2147483648 := by
    have := truncate_natCast 2147483648
    simpa using this
  unfold is_faulty
  rw [h]
  decide

theorem is_even_two_pow_31 : is_even 2147483648 = false := by
  have := is_even_natCast_of_ge 2147483648 (by decide)
  simpa using this

theorem sequence_in_int_range (v : List Dbl) (hN : v.length ≤ 2 ^ 31) :
    ∀ x ∈ sequence v, in_int_range x := by
  intro x hx
  unfold sequence at hx
  obtain ⟨i, hi, rfl⟩ := List.mem_map.1 hx
  rw [List.mem_range] at hi
  rw [toDouble_of_lt i (by omega)]
  exact in_int_range_natCast i (by omega)

theorem filter_sequence_is_faulty (v : List Dbl) (hN : v.length ≤ 2 ^ 31) :
    (sequence v).filter (fun x => !is_even x) = (sequence v).filter (fun x => !is_faulty x) := by
  apply List.filter_congr
  intro x hx
  rw [is_even_eq_is_faulty x (sequence_in_int_range v hN x hx)]

/-! ## Partition: the retained prefix -/

/-- C2, counterexample: with `N = 2147483649` the stencil element `2147483648.0`
is outside the range of `int`, the device conversion clamps it to `INT_MAX`,
`is_even` is false on it and the partition retains it, although its truncated
integer part is even; `new_size` is `1073741825`, one more than the number of
elements with odd integer part. -/
theorem C2_retains_even_beyond_int_range :
    (partition_step (initial_state 2147483649)).new_size = 1073741825 ∧
    (2147483648 : Dbl) ∈ (partition_step (initial_state 2147483649)).d_A.take
      (partition_step (initial_state 2147483649)).new_size ∧
    is_faulty 2147483648 = true := by
  have hlen := length_initial_state 2147483649
  have heq : (initial_state 2147483649).d_B.length = (initial_state 2147483649).d_A.length := by
    rw [hlen.1, hlen.2]
  refine ⟨?_, ?_, is_faulty_two_pow_31⟩
  · rw [partition_step_new_size _ heq (by rw [hlen.1]; decide), hlen.1]
    decide
  · rw [partition_step_take _ heq, List.mem_filter]
    constructor
    · unfold sequence
      rw [hlen.1]
      apply List.mem_map.2
      refine ⟨2147483648, List.mem_range.2 (by decide), ?_⟩
      rw [toDouble_of_lt _ (by decide)]
      norm_num
    · rw [is_even_two_pow_31]
      rfl

/-- C2, amended: in every iteration (both buffers having the same length `N`),
the partition yields `new_size ≤ N`, and the first `new_size` elements of the
primary buffer are exactly the elements of the pre-partition primary buffer
on which the code's predicate `is_even` is false, in their original order;
`new_size` is their count and the buffer keeps its length.  For `N ≤ 2 ^ 31`
these are exactly the elements on which `is_faulty` is false: each retained
element has `is_faulty == false` and `new_size` counts the non-faulty ones. -/
theorem C2_partition (s : LoopState) (h : s.d_B.length = s.d_A.length) :
    (partition_step s).new_size ≤ s.d_A.length ∧
    (partition_step s).d_A.take (partition_step s).new_size =
      (generate_sorted s).1.filter (fun x => !is_even x) ∧
    (∀ x ∈ (partition_step s).d_A.take (partition_step s).new_size, is_even x = false) ∧
    (partition_step s).new_size = (generate_sorted s).1.countP (fun x => !is_even x) ∧
    (partition_step s).d_A.length = s.d_A.length ∧
    (s.d_A.length ≤ 2 ^ 31 →
      (partition_step s).d_A.take (partition_step s).new_size =
        (generate_sorted s).1.filter (fun x => !is_faulty x) ∧
      (∀ x ∈ (partition_step s).d_A.take (partition_step s).new_size, is_faulty x = false) ∧
      (partition_step s).new_size = (generate_sorted s).1.countP (fun x => !is_faulty x)) := by
  obtain ⟨hle, hlA, _⟩ := partition_step_length s h
  have htake := partition_step_take s h
  have hsize : (partition_step s).new_size =
      ((sequence s.d_A).filter (fun x => !is_even x)).length := by
    rw [partition_step_eq s h]
  have hgen : (generate_sorted s).1 = sequence s.d_A := by rw [generate_sorted_eq s h]
  rw [hgen]
  refine ⟨hle, htake, ?_, ?_, hlA, ?_⟩
  · rw [htake]
    intro x hx
    simpa using (List.mem_filter.1 hx).2
  · rw [hsize, List.countP_eq_length_filter]
  · intro hN
    have hf := filter_sequence_is_faulty s.d_A hN
    refine ⟨by rw [htake, hf], ?_, ?_⟩
    · rw [htake, hf]
      intro x hx
      simpa using (List.mem_filter.1 hx).2
    · rw [hsize, hf, List.countP_eq_length_filter]

theorem C2_partition_witness :
    (initial_state 4).d_B.length = (initial_state 4).d_A.length ∧
    ((partition_step (initial_state 4)).new_size ≤ (initial_state 4).d_A.length ∧
    (partition_step (initial_state 4)).d_A.take (partition_step (initial_state 4)).new_size =
      (generate_sorted (initial_state 4)).1.filter (fun x => !is_even x) ∧
    (∀ x ∈ (partition_step (initial_state 4)).d_A.take
      (partition_step (initial_state 4)).new_size, is_even x = false) ∧
    (partition_step (initial_state 4)).new_size =
      (generate_sorted (initial_state 4)).1.countP (fun x => !is_even x) ∧
    (partition_step (initial_state 4)).d_A.length = (initial_state 4).d_A.length ∧
    ((initial_state 4).d_A.length ≤ 2 ^ 31 →
      (partition_step (initial_state 4)).d_A.take (partition_step (initial_state 4)).new_size =
        (generate_sorted (initial_state 4)).1.filter (fun x => !is_faulty x) ∧
      (∀ x ∈ (partition_step (initial_state 4)).d_A.take
        (partition_step (initial_state 4)).new_size, is_faulty x = false) ∧
      (partition_step (initial_state 4)).new_size =
        (generate_sorted (initial_state 4)).1.countP (fun x => !is_faulty x))) :=
  ⟨rfl, C2_partition (initial_state 4) rfl⟩

/-! ## Compare kernel: one work-item -/

/-- C5, counterexample: on the one-element buffer `[2147483648.0]` the
work-item `0` writes `0.0`, although the truncated integer part of the element
is even: the device conversion clamps it to `INT_MAX`, which is odd. -/
theorem C5_flag_beyond_int_range :
    1 ≤ [(2147483648 : Dbl)].length ∧ 1 ≤ [(5 : Dbl)].length ∧
    [(2147483648 : Dbl)][0]? = some 2147483648 ∧
    is_faulty 2147483648 = true ∧
    (compare_at [2147483648] [5] 1 0).2[0]? = some 0 := by
  refine ⟨by decide, by decide, rfl, is_faulty_two_pow_31, ?_⟩
  rw [compare_at_getElem?_self _ _ 1 0 (by decide) (by decide)]
  have h : is_even ([(2147483648 : Dbl)].getD 0 0) = false := is_even_two_pow_31
  rw [h]
  rfl

/-- C5, amended: for buffers holding at least `M` elements, the work-item
`id < M` writes `1.0` into `faulty_elems[id]` when the code's predicate
`is_even (A[id])` holds and `0.0` otherwise (which, whenever the truncation of
`A[id]` is representable in `int`, is `1.0` exactly when `is_faulty (A[id])`
holds), and leaves the other slots and `A` unchanged; a work-item with
`id ≥ M` changes nothing, whatever the buffers hold. -/
theorem C5_compare_at (A faulty_elems : List Dbl) (M id : Nat)
    (hA : M ≤ A.length) (hF : M ≤ faulty_elems.length) :
    (id < M →
      (compare_at A faulty_elems M id).1 = A ∧
      (compare_at A faulty_elems M id).2.length = faulty_elems.length ∧
      (∃ a, A[id]? = some a ∧
        (compare_at A faulty_elems M id).2[id]? = some (if is_even a then 1 else 0) ∧
        (in_int_range a →
          (compare_at A faulty_elems M id).2[id]? = some (if is_faulty a then 1 else 0))) ∧
      ∀ j, j ≠ id → (compare_at A faulty_elems M id).2[j]? = faulty_elems[j]?) ∧
    (M ≤ id → ∀ A2 F2 : List Dbl, compare_at A2 F2 M id = (A2, F2)) := by
  constructor
  · intro hid
    have hidA : id < A.length := by omega
    have hidF : id < faulty_elems.length := by omega
    have hget : A.getD id 0 = A[id] := by
      rw [List.getD_eq_getElem?_getD, List.getElem?_eq_getElem hidA, Option.getD_some]
    have hflag := compare_at_getElem?_self A faulty_elems M id hid hidF
    rw [hget] at hflag
    refine ⟨compare_at_fst _ _ _ _, compare_at_length _ _ _ _,
      ⟨A[id], List.getElem?_eq_getElem hidA, hflag, ?_⟩, ?_⟩
    · intro hr
      rw [hflag, is_even_eq_is_faulty _ hr]
    · intro j hj
      exact compare_at_getElem?_ne _ _ _ _ _ (Ne.symm hj)
  · intro hid A2 F2
    unfold compare_at
    rw [if_pos hid]

theorem C5_compare_at_witness :
    2 ≤ [(1 : Dbl), 2].length ∧ 2 ≤ [(5 : Dbl), 5].length ∧
    ((1 < 2 →
      (compare_at [1, 2] [5, 5] 2 1).1 = [1, 2] ∧
      (compare_at [1, 2] [5, 5] 2 1).2.length = [(5 : Dbl), 5].length ∧
      (∃ a, [(1 : Dbl), 2][1]? = some a ∧
        (compare_at [1, 2] [5, 5] 2 1).2[1]? = some (if is_even a then 1 else 0) ∧
        (in_int_range a →
          (compare_at [1, 2] [5, 5] 2 1).2[1]? = some (if is_faulty a then 1 else 0))) ∧
      ∀ j, j ≠ 1 → (compare_at [1, 2] [5, 5] 2 1).2[j]? = [(5 : Dbl), 5][j]?) ∧
    (2 ≤ 1 → ∀ A2 F2 : List Dbl, compare_at A2 F2 2 1 = (A2, F2))) :=
  ⟨by decide, by decide, C5_compare_at [1, 2] [5, 5] 2 1 (by decide) (by decide)⟩

end GpuBurn
